import Mathlib

set_option maxHeartbeats 1000000

/-! Verification of the web-crawler source (src/main.rs): the URL-discovery
pipeline (robots.txt parsing, recursive sitemap expansion, the three-branch
orchestrator fallback) and the HTML-to-Markdown converter. External effects
(network fetch, native crawl) are modelled as oracle parameters; the XML
decoder (quick_xml) is modelled at its event-stream interface, which is the
interface the source consumes; the unbounded recursion of
`parse_sitemap_recursive` is modelled with an explicit fuel parameter, where
a result of `none` for every fuel bound witnesses non-termination. -/

/-- Event-stream interface of the quick_xml reader, as consumed by
`parse_sitemap_recursive`: element open (`Event::Start`), text content
(`Event::Text`, already unescaped), element close (`Event::End`), end of
document (`Event::Eof`), a decoder-reported error (`Err`), and any other
event kind (CData, comments, self-closing elements, ...), which the source
ignores via its catch-all arm. -/
inductive XmlEvent where
  | start (name : String)
  | text (s : String)
  | endTag (name : String)
  | eof
  | err
  | other

/-- Models Rust `str::starts_with` at the character-list level: first
argument is the pattern, second the scanned list. -/
def listStartsWith : List Char → List Char → Bool
  | [], _ => true
  | _ :: _, [] => false
  | p :: ps, c :: cs => p == c && listStartsWith ps cs

/-- Rust `s.starts_with(pat)`. -/
def rustStartsWith (s pat : String) : Bool := listStartsWith pat.data s.data

/-- Rust `s.ends_with(pat)`. -/
def rustEndsWith (s pat : String) : Bool := listStartsWith pat.data.reverse s.data.reverse

/-- Models `HashSet::insert` on the accumulator `all_urls`: duplicate
insertions are no-ops. The list keeps first-insertion order; the source's
hash order is unspecified and only membership is semantically relevant. -/
def insertUrl (u : String) (s : List String) : List String :=
  if u ∈ s then s else s ++ [u]

/-- The event loop of `parse_sitemap_recursive` (src/main.rs lines 150-192).
`recurse` stands for the recursive call made on nested sitemaps (loc text
ending in ".xml"). Exactly as in the source, `inLoc` is reset to false only
on a `</loc>` whose accumulated `cur` text is non-empty, and `cur` is
assigned from a text event only while `inLoc` is set. `Except.error ()`
models the `Err` return on an XML parse error; the outer `none` models fuel
exhaustion of `recurse`. -/
def sitemapLoop (recurse : String → List String → Option (Except Unit (List String))) :
    List XmlEvent → Bool → String → List String → Option (Except Unit (List String))
  | [], _, _, acc => some (Except.ok acc)
  | XmlEvent.start n :: rest, inLoc, cur, acc =>
      sitemapLoop recurse rest (if n = "loc" then true else inLoc) cur acc
  | XmlEvent.text s :: rest, inLoc, cur, acc =>
      sitemapLoop recurse rest inLoc (if inLoc then s else cur) acc
  | XmlEvent.endTag n :: rest, inLoc, cur, acc =>
      if n = "loc" ∧ cur ≠ "" then
        if rustEndsWith cur ".xml" then
          match recurse cur acc with
          | some (Except.ok acc2) => sitemapLoop recurse rest false "" acc2
          | r => r
        else sitemapLoop recurse rest false "" (insertUrl cur acc)
      else sitemapLoop recurse rest inLoc cur acc
  | XmlEvent.eof :: _, _, _, acc => some (Except.ok acc)
  | XmlEvent.err :: _, _, _, _ => some (Except.error ())
  | XmlEvent.other :: rest, inLoc, cur, acc => sitemapLoop recurse rest inLoc cur acc

/-- Fuel-indexed embedding of `parse_sitemap_recursive` (src/main.rs lines
133-201). `fetch url = none` models a failed fetch or an empty page list,
which the source treats as non-fatal (returns `Ok` without touching the
accumulator); `fetch url = some events` is the decoded event stream of the
fetched document. A result of `none` means the fuel bound was exhausted, so
`none` for every fuel models non-termination of the source's unguarded
recursion. -/
def parse_sitemap_recursive (fetch : String → Option (List XmlEvent)) :
    Nat → String → List String → Option (Except Unit (List String))
  | 0 => fun _ _ => none
  | fuel + 1 => fun url acc =>
    match fetch url with
    | none => some (Except.ok acc)
    | some events => sitemapLoop (parse_sitemap_recursive fetch fuel) events false "" acc

/-- A sitemap document whose single loc entry is `u`, as an event stream. -/
def locDoc (u : String) : List XmlEvent :=
  [XmlEvent.start "loc", XmlEvent.text u, XmlEvent.endTag "loc", XmlEvent.eof]

/-- The cyclic sitemap reference graph of the claim: a.xml references b.xml
and b.xml references a.xml. -/
def cycleFetch : String → Option (List XmlEvent) := fun u =>
  if u = "http://x/a.xml" then some (locDoc "http://x/b.xml")
  else if u = "http://x/b.xml" then some (locDoc "http://x/a.xml")
  else none

/-- C1: the source tracks no VisitedSitemaps set, so on the two-element
cycle (sitemap a.xml references b.xml and b.xml references a.xml) sitemap
expansion re-expands already-visited sitemap URLs forever: no fuel bound
ever suffices, refuting the claimed termination and visited-URL skipping. -/
theorem parse_sitemap_cycle_diverges :
    ∀ fuel acc,
      parse_sitemap_recursive cycleFetch fuel "http://x/a.xml" acc = none ∧
      parse_sitemap_recursive cycleFetch fuel "http://x/b.xml" acc = none := by
  intro fuel
  induction fuel with
  | zero => intro acc; exact ⟨rfl, rfl⟩
  | succ f ih =>
    intro acc
    constructor
    · have e : parse_sitemap_recursive cycleFetch (f + 1) "http://x/a.xml" acc =
          (match parse_sitemap_recursive cycleFetch f "http://x/b.xml" acc with
            | some (Except.ok acc2) =>
                sitemapLoop (parse_sitemap_recursive cycleFetch f) [XmlEvent.eof] false "" acc2
            | r => r) := rfl
      rw [e, (ih acc).2]
    · have e : parse_sitemap_recursive cycleFetch (f + 1) "http://x/b.xml" acc =
          (match parse_sitemap_recursive cycleFetch f "http://x/a.xml" acc with
            | some (Except.ok acc2) =>
                sitemapLoop (parse_sitemap_recursive cycleFetch f) [XmlEvent.eof] false "" acc2
            | r => r) := rfl
      rw [e, (ih acc).1]

/-- Left-to-right split of a character list on a single separator character,
modelling Rust `str::split(sep)`: always yields at least one (possibly
empty) segment. -/
def splitChar (sep : Char) : List Char → List (List Char)
  | [] => [[]]
  | c :: rest =>
    match splitChar sep rest with
    | [] => if c == sep then [[], []] else [[c]]
    | h :: t => if c == sep then [] :: h :: t else (c :: h) :: t

/-- Models Rust `str::lines`: split on newline, drop the optional final
empty segment produced by a trailing newline, strip one trailing carriage
return from each line. -/
def rustLines (s : String) : List String :=
  let parts := splitChar '\n' s.data
  let parts2 := if parts.getLast? = some [] then parts.dropLast else parts
  parts2.map (fun l => String.mk (if l.getLast? = some '\r' then l.dropLast else l))

/-- Models Rust `str::trim` (ASCII whitespace, which is all that occurs in
the inputs at issue). -/
def rustTrim (s : String) : String :=
  String.mk (((s.data.dropWhile Char.isWhitespace).reverse.dropWhile Char.isWhitespace).reverse)

/-- Embedding of `parse_robots_txt` (src/main.rs lines 105-117): keep the
lines whose lowercasing starts with "sitemap:", then map each kept line
through `trim_start_matches(|c| c.is_whitespace() || c.to_ascii_lowercase()
== 's')` — i.e. drop the leading characters that are whitespace or the
letter s in either case — followed by `trim`. -/
def parse_robots_txt (content : String) : List String :=
  ((rustLines content).filter
      (fun line => listStartsWith "sitemap:".data (line.data.map Char.toLower))).map
    (fun line =>
      rustTrim (String.mk (line.data.dropWhile (fun c => c.isWhitespace || c.toLower == 's'))))

/-- C2: refuted on the claim's own input. The source's `trim_start_matches`
predicate strips only leading whitespace and the letter s, not the whole
"sitemap:" prefix, so the sitemap lines come back as "ITEMAP: ..." and
"itemap:..." rather than the claimed bare URLs. -/
theorem parse_robots_txt_keeps_garbled_lines :
    parse_robots_txt "SITEMAP: http://x/a.xml\nSitemap:http://x/b.xml\nDisallow: /priv" =
      ["ITEMAP: http://x/a.xml", "itemap:http://x/b.xml"] ∧
    parse_robots_txt "SITEMAP: http://x/a.xml\nSitemap:http://x/b.xml\nDisallow: /priv" ≠
      ["http://x/a.xml", "http://x/b.xml"] := by
  exact ⟨rfl, by decide⟩

/-- Rust `url.trim_end_matches` on the slash character: drop all trailing
slashes. -/
def trim_end_slashes (url : String) : String :=
  String.mk ((url.data.reverse.dropWhile (fun c => c == '/')).reverse)

/-- The filename computation of `save_markdown` (src/main.rs lines 342-348):
strip trailing slashes, split on the slash, take the last segment — with the
source's `unwrap_or("index")` default for a missing last element — and
append ".md". -/
def save_markdown_file_name (url : String) : String :=
  String.mk (((splitChar '/' (trim_end_slashes url).data).getLast?).getD "index".data) ++ ".md"

/-- C3 counterexample: for the site root the source produces "x.com.md",
not the claimed "index.md". -/
theorem save_markdown_root_not_index :
    save_markdown_file_name "https://x.com/" = "x.com.md" ∧
    save_markdown_file_name "https://x.com/" ≠ "index.md" := by
  exact ⟨rfl, by decide⟩

lemma splitChar_ne_nil (sep : Char) (cs : List Char) : splitChar sep cs ≠ [] := by
  cases cs with
  | nil => simp [splitChar]
  | cons c rest =>
    unfold splitChar
    split <;> split <;> simp

/-- C3 amended: the filename is the last slash-separated segment of the
trailing-slash-stripped URL plus ".md" ("https://x.com/a/b/" gives "b.md"),
but for the site root the last segment is the host ("https://x.com/" gives
"x.com.md"), not "index": the "index" default is unreachable because the
split always yields at least one segment. -/
theorem save_markdown_file_name_spec :
    save_markdown_file_name "https://x.com/a/b/" = "b.md" ∧
    save_markdown_file_name "https://x.com/" = "x.com.md" ∧
    ∀ url, ∃ seg, (splitChar '/' (trim_end_slashes url).data).getLast? = some seg ∧
      save_markdown_file_name url = String.mk seg ++ ".md" := by
  refine ⟨rfl, rfl, fun url => ?_⟩
  have hne := splitChar_ne_nil '/' (trim_end_slashes url).data
  rcases Option.isSome_iff_exists.1 (List.getLast?_isSome.2 hne) with ⟨seg, hseg⟩
  refine ⟨seg, hseg, ?_⟩
  unfold save_markdown_file_name
  rw [hseg]
  rfl

/-- The text payloads a document contributes while the source's `in_loc`
flag is set, mirroring the flag and `cur` dynamics of `sitemapLoop`
exactly: the flag is set on a loc open but cleared only on a loc close
whose accumulated text is non-empty. -/
def flaggedTexts : List XmlEvent → Bool → String → List String
  | [], _, _ => []
  | XmlEvent.start n :: rest, inLoc, cur =>
      flaggedTexts rest (if n = "loc" then true else inLoc) cur
  | XmlEvent.text s :: rest, inLoc, cur =>
      if inLoc then s :: flaggedTexts rest inLoc s else flaggedTexts rest inLoc cur
  | XmlEvent.endTag n :: rest, inLoc, cur =>
      if n = "loc" ∧ cur ≠ "" then flaggedTexts rest false ""
      else flaggedTexts rest inLoc cur
  | XmlEvent.eof :: _, _, _ => []
  | XmlEvent.err :: _, _, _ => []
  | XmlEvent.other :: rest, inLoc, cur => flaggedTexts rest inLoc cur

/-- URL `u` is a flagged text payload of some document the fetcher can
return. -/
def docFlagged (fetch : String → Option (List XmlEvent)) (u : String) : Prop :=
  ∃ url doc, fetch url = some doc ∧ u ∈ flaggedTexts doc false ""

lemma mem_insertUrl {u v : String} {s : List String} (h : u ∈ insertUrl v s) :
    u = v ∨ u ∈ s := by
  unfold insertUrl at h
  split at h
  · exact Or.inr h
  · rcases List.mem_append.1 h with h2 | h2
    · exact Or.inr h2
    · exact Or.inl (List.mem_singleton.1 h2)

lemma sitemapLoop_mem {P : String → Prop}
    (recurse : String → List String → Option (Except Unit (List String)))
    (hrec : ∀ url acc out, recurse url acc = some (Except.ok out) →
      ∀ u, u ∈ out → u ∈ acc ∨ P u) :
    ∀ (evts : List XmlEvent) (inLoc : Bool) (cur : String) (acc out : List String),
      sitemapLoop recurse evts inLoc cur acc = some (Except.ok out) →
      ∀ u, u ∈ out →
        u ∈ acc ∨ (u = cur ∧ cur ≠ "") ∨ u ∈ flaggedTexts evts inLoc cur ∨ P u := by
  intro evts
  induction evts with
  | nil =>
    intro inLoc cur acc out h u hu
    exact Or.inl (by rw [Except.ok.inj (Option.some.inj h)]; exact hu)
  | cons e rest ih =>
    intro inLoc cur acc out h u hu
    cases e with
    | start n =>
      exact ih (if n = "loc" then true else inLoc) cur acc out h u hu
    | text s =>
      cases inLoc with
      | false => exact ih false cur acc out h u hu
      | true =>
        have h2 := ih true s acc out h u hu
        rcases h2 with h2 | ⟨h2, h3⟩ | h2 | h2
        · exact Or.inl h2
        · refine Or.inr (Or.inr (Or.inl ?_))
          show u ∈ s :: flaggedTexts rest true s
          rw [h2]; exact List.mem_cons_self s _
        · refine Or.inr (Or.inr (Or.inl ?_))
          show u ∈ s :: flaggedTexts rest true s
          exact List.mem_cons_of_mem s h2
        · exact Or.inr (Or.inr (Or.inr h2))
    | endTag n =>
      unfold sitemapLoop at h
      by_cases hc : n = "loc" ∧ cur ≠ ""
      · rw [if_pos hc] at h
        have hgoal : flaggedTexts (XmlEvent.endTag n :: rest) inLoc cur =
            flaggedTexts rest false "" := by
          simp only [flaggedTexts]; rw [if_pos hc]
        cases hx : rustEndsWith cur ".xml" with
        | true =>
          rw [hx, if_pos rfl] at h
          cases hr : recurse cur acc with
          | none => rw [hr] at h; exact Option.noConfusion h
          | some v =>
            cases v with
            | error e => rw [hr] at h; exact Except.noConfusion (Option.some.inj h)
            | ok acc2 =>
              rw [hr] at h
              have h2 := ih false "" acc2 out h u hu
              rcases h2 with h2 | ⟨h2, h3⟩ | h2 | h2
              · rcases hrec cur acc acc2 hr u h2 with h3 | h3
                · exact Or.inl h3
                · exact Or.inr (Or.inr (Or.inr h3))
              · exact absurd rfl h3
              · exact Or.inr (Or.inr (Or.inl (hgoal ▸ h2)))
              · exact Or.inr (Or.inr (Or.inr h2))
        | false =>
          rw [hx] at h
          simp only [Bool.false_eq_true, if_false] at h
          have h2 := ih false "" (insertUrl cur acc) out h u hu
          rcases h2 with h2 | ⟨h2, h3⟩ | h2 | h2
          · rcases mem_insertUrl h2 with h3 | h3
            · exact Or.inr (Or.inl ⟨h3, hc.2⟩)
            · exact Or.inl h3
          · exact absurd rfl h3
          · exact Or.inr (Or.inr (Or.inl (hgoal ▸ h2)))
          · exact Or.inr (Or.inr (Or.inr h2))
      · rw [if_neg hc] at h
        have hgoal : flaggedTexts (XmlEvent.endTag n :: rest) inLoc cur =
            flaggedTexts rest inLoc cur := by
          simp only [flaggedTexts]; rw [if_neg hc]
        rcases ih inLoc cur acc out h u hu with h2 | h2 | h2 | h2
        · exact Or.inl h2
        · exact Or.inr (Or.inl h2)
        · exact Or.inr (Or.inr (Or.inl (hgoal ▸ h2)))
        · exact Or.inr (Or.inr (Or.inr h2))
    | eof =>
      exact Or.inl (by rw [Except.ok.inj (Option.some.inj h)]; exact hu)
    | err =>
      exact Except.noConfusion (Option.some.inj h)
    | other =>
      exact ih inLoc cur acc out h u hu

lemma parse_sitemap_mem (fetch : String → Option (List XmlEvent)) :
    ∀ fuel url acc out,
      parse_sitemap_recursive fetch fuel url acc = some (Except.ok out) →
      ∀ u, u ∈ out → u ∈ acc ∨ docFlagged fetch u := by
  intro fuel
  induction fuel with
  | zero =>
    intro url acc out h
    exact Option.noConfusion h
  | succ f ih =>
    intro url acc out h u hu
    unfold parse_sitemap_recursive at h
    cases hf : fetch url with
    | none =>
      rw [hf] at h
      exact Or.inl (by rw [Except.ok.inj (Option.some.inj h)]; exact hu)
    | some doc =>
      rw [hf] at h
      have h2 := sitemapLoop_mem (P := docFlagged fetch)
        (parse_sitemap_recursive fetch f) ih doc false "" acc out h u hu
      rcases h2 with h2 | ⟨h2, h3⟩ | h2 | h2
      · exact Or.inl h2
      · exact absurd rfl h3
      · exact Or.inr ⟨url, doc, hf, h2⟩
      · exact Or.inr h2

/-- C4 amended: every URL that sitemap expansion adds to the accumulator is
the payload of a text event read while the source's `in_loc` flag was set,
in some document the fetcher returned. Because the flag is cleared only on
a loc close whose accumulated text is non-empty, "while the flag is set" is
strictly weaker than "inside a loc element" (see the counterexample). -/
theorem sitemap_inserts_only_flagged_texts :
    ∀ (fetch : String → Option (List XmlEvent)) fuel url acc out,
      parse_sitemap_recursive fetch fuel url acc = some (Except.ok out) →
      ∀ u, u ∈ out → u ∈ acc ∨ docFlagged fetch u :=
  fun fetch => parse_sitemap_mem fetch

/-- An event stream in which the text "outside" occurs between two empty
loc elements, hence inside no loc element. -/
def outsideDoc : List XmlEvent :=
  [XmlEvent.start "loc", XmlEvent.endTag "loc", XmlEvent.text "outside",
   XmlEvent.start "loc", XmlEvent.endTag "loc", XmlEvent.eof]

/-- A fetcher serving `outsideDoc` as the sitemap s.xml. -/
def outsideFetch : String → Option (List XmlEvent) := fun u =>
  if u = "http://x/s.xml" then some outsideDoc else none

/-- Witness for the amended C4 statement at a concrete input. -/
theorem sitemap_inserts_only_flagged_texts_witness :
    "outside" ∈ ([] : List String) ∨ docFlagged outsideFetch "outside" :=
  sitemap_inserts_only_flagged_texts outsideFetch 1 "http://x/s.xml" [] ["outside"]
    rfl "outside" (by simp)

/-- Modelled from the spec's words ("track whether the parser is inside a
loc element"): the text payloads occurring strictly inside a loc element,
with the inside flag cleared on every loc close. Used only to compare the
source behaviour against the spec's description. -/
def specLocTexts : List XmlEvent → Bool → List String
  | [], _ => []
  | XmlEvent.start n :: rest, inLoc => specLocTexts rest (if n = "loc" then true else inLoc)
  | XmlEvent.text s :: rest, inLoc =>
      if inLoc then s :: specLocTexts rest inLoc else specLocTexts rest inLoc
  | XmlEvent.endTag n :: rest, inLoc => specLocTexts rest (if n = "loc" then false else inLoc)
  | XmlEvent.eof :: _, _ => []
  | XmlEvent.err :: _, _ => []
  | XmlEvent.other :: rest, inLoc => specLocTexts rest inLoc

/-- C4 counterexample: in `outsideDoc` no text occurs inside any loc
element (`specLocTexts` is empty), yet expanding the document inserts
"outside" into the accumulator — text outside every loc element
contributed, because the empty first loc element leaves `in_loc` set. -/
theorem sitemap_outside_text_inserted :
    parse_sitemap_recursive outsideFetch 1 "http://x/s.xml" [] =
      some (Except.ok ["outside"]) ∧
    specLocTexts outsideDoc false = [] := ⟨rfl, rfl⟩

/-- Embedding of `get_all_page_urls_from_sitemaps` (src/main.rs lines
120-130): fold the recursive expansion over the sitemap URL list, threading
the shared accumulator; an error (the source's `?`) aborts the whole
fold, as does fuel exhaustion (`none`). -/
def get_all_page_urls_from_sitemaps (fetch : String → Option (List XmlEvent)) (fuel : Nat) :
    List String → List String → Option (Except Unit (List String))
  | [], acc => some (Except.ok acc)
  | url :: rest, acc =>
    match parse_sitemap_recursive fetch fuel url acc with
    | some (Except.ok acc2) => get_all_page_urls_from_sitemaps fetch fuel rest acc2
    | r => r

/-- The page-URL selection step of `run_crawler` (src/main.rs lines 17-51):
branch A uses the robots-declared sitemaps whenever there is at least one;
otherwise branch B expands the guessed `<domain>/sitemap.xml`, and branch C
falls back to the native crawl — whose external result is the `native`
oracle — only when the guessed sitemap yields no pages. An error result
(the source's `?`) propagates and aborts the run. -/
def run_crawler_page_urls (fetch : String → Option (List XmlEvent)) (native : List String)
    (fuel : Nat) (robotsSitemaps : List String) (domain : String) :
    Option (Except Unit (List String)) :=
  if !robotsSitemaps.isEmpty then
    get_all_page_urls_from_sitemaps fetch fuel robotsSitemaps []
  else
    match get_all_page_urls_from_sitemaps fetch fuel
        [trim_end_slashes domain ++ "/sitemap.xml"] [] with
    | some (Except.ok pages) =>
        if !pages.isEmpty then some (Except.ok pages) else some (Except.ok native)
    | r => r

/-- C5: whenever robots yielded at least one sitemap URL the orchestrator
commits to branch A — the final result is exactly the expansion of those
sitemaps, even when that expansion is empty, and neither the guessed
sitemap nor the native crawl is consulted; when robots yielded none, the
guessed sitemap's pages are used if non-empty and the native crawl's links
otherwise. -/
theorem run_crawler_branch_order :
    ∀ (fetch : String → Option (List XmlEvent)) native fuel robots domain,
      (robots.isEmpty = false →
        run_crawler_page_urls fetch native fuel robots domain =
          get_all_page_urls_from_sitemaps fetch fuel robots []) ∧
      (robots.isEmpty = true → ∀ pages,
        get_all_page_urls_from_sitemaps fetch fuel
            [trim_end_slashes domain ++ "/sitemap.xml"] [] = some (Except.ok pages) →
        run_crawler_page_urls fetch native fuel robots domain =
          some (Except.ok (if pages.isEmpty then native else pages))) := by
  intro fetch native fuel robots domain
  constructor
  · intro h
    unfold run_crawler_page_urls
    rw [h]
    rfl
  · intro h pages hp
    unfold run_crawler_page_urls
    rw [h, hp]
    cases hpe : pages.isEmpty <;> simp [hpe]

/-- Witness for branch A at a concrete input: with robots declaring one
sitemap whose fetch fails, branch A still decides the result (here the
empty expansion), bypassing both fallbacks. -/
theorem run_crawler_branch_order_witness :
    run_crawler_page_urls (fun _ => none) ["n"] 1 ["http://x/s.xml"] "http://x" =
      get_all_page_urls_from_sitemaps (fun _ => none) 1 ["http://x/s.xml"] [] :=
  (run_crawler_branch_order (fun _ => none) ["n"] 1 ["http://x/s.xml"] "http://x").1 rfl

/-- C6: a failed fetch of a sitemap document is non-fatal — the call
returns Ok with the accumulator untouched; a decoder-reported XML error
makes the event loop return an error immediately, and an error result of
sitemap expansion propagates through the orchestrator and aborts the whole
discovery run. -/
theorem sitemap_error_handling :
    (∀ (fetch : String → Option (List XmlEvent)) fuel url acc, fetch url = none →
      parse_sitemap_recursive fetch (fuel + 1) url acc = some (Except.ok acc)) ∧
    (∀ recurse rest inLoc cur acc,
      sitemapLoop recurse (XmlEvent.err :: rest) inLoc cur acc = some (Except.error ())) ∧
    (∀ (fetch : String → Option (List XmlEvent)) native fuel robots domain,
      robots.isEmpty = false →
      get_all_page_urls_from_sitemaps fetch fuel robots [] = some (Except.error ()) →
      run_crawler_page_urls fetch native fuel robots domain = some (Except.error ())) := by
  refine ⟨?_, ?_, ?_⟩
  · intro fetch fuel url acc h
    unfold parse_sitemap_recursive
    rw [h]
  · intro recurse rest inLoc cur acc
    rfl
  · intro fetch native fuel robots domain h1 h2
    unfold run_crawler_page_urls
    rw [h1, h2]
    rfl

/-- A fetcher whose only document is a malformed sitemap, i.e. the decoder
reports an error as its first event. -/
def errFetch : String → Option (List XmlEvent) := fun u =>
  if u = "http://x/bad.xml" then some [XmlEvent.err] else none

/-- Witness for the error-handling theorem at concrete inputs: a failed
fetch yields Ok with the untouched accumulator, and a decoder error in a
robots-declared sitemap aborts the whole orchestrator run. -/
theorem sitemap_error_handling_witness :
    parse_sitemap_recursive (fun _ => none) 1 "http://x/s.xml" ["u"] =
      some (Except.ok ["u"]) ∧
    run_crawler_page_urls errFetch ["n"] 2 ["http://x/bad.xml"] "http://x" =
      some (Except.error ()) :=
  ⟨sitemap_error_handling.1 (fun _ => none) 0 "http://x/s.xml" ["u"] rfl,
   sitemap_error_handling.2.2 errFetch ["n"] 2 ["http://x/bad.xml"] "http://x" rfl rfl⟩

/-- The tag-name scan of the converter (src/main.rs lines 294-299): after
the opening angle bracket, collect characters into the tag name up to the
next space or closing angle bracket, which stays in the remainder. -/
def readTagName : List Char → String → String × List Char
  | [], tag => (tag, [])
  | c :: rest, tag =>
    if c = '>' ∨ c = ' ' then (tag, c :: rest)
    else readTagName rest (tag.push c)

/-- The attribute skip of the converter (src/main.rs lines 300-303): drop
characters up to and including the closing angle bracket. -/
def skipPastGt : List Char → List Char
  | [] => []
  | c :: rest => if c = '>' then rest else skipPastGt rest

/-- The flush of buffered content at a tag boundary (src/main.rs lines
268-291): when the trimmed buffer is non-empty, append its rendering under
the current single-slot tag context; `none` (and any context outside the
recognized set, which the source never stores) uses the untagged fallback
rule. -/
def flushContent (in_tag : Option String) (cc md : String) : String :=
  if rustTrim cc = "" then md
  else
    match in_tag with
    | some "h1" => md ++ "# " ++ rustTrim cc ++ "\n\n"
    | some "h2" => md ++ "## " ++ rustTrim cc ++ "\n\n"
    | some "p" => md ++ rustTrim cc ++ "\n\n"
    | some "li" => md ++ "- " ++ rustTrim cc ++ "\n"
    | some "a" => md ++ "[" ++ rustTrim cc ++ "](" ++ rustTrim cc ++ ")"
    | some "img" => md ++ "![Image](" ++ rustTrim cc ++ ")\n"
    | some "strong" => md ++ "**" ++ rustTrim cc ++ "**"
    | some "em" => md ++ "*" ++ rustTrim cc ++ "*"
    | some "blockquote" => md ++ "> " ++ rustTrim cc ++ "\n\n"
    | _ => md ++ rustTrim cc ++ "\n"

/-- Fuel-indexed embedding of the scanning loop of `html_to_markdown`
(src/main.rs lines 266-326), consuming the character vector as a list (the
source's index only moves forward). Each iteration consumes at least the
current character, so fuel equal to the input length plus one always
suffices (proved below). On an opening angle bracket the buffered content
is flushed, the tag name read, attributes skipped; a leading slash or an
unrecognized tag clears the context, a recognized tag overwrites it, and
br, ul, ol only emit a newline. The final flush at end of input uses the
untagged fallback rule, exactly as in the source. -/
def html_loop : Nat → List Char → Option String → String → String → Option String
  | 0, _, _, _, _ => none
  | _ + 1, [], _, cc, md =>
      some (if rustTrim cc = "" then md else md ++ rustTrim cc ++ "\n")
  | fuel + 1, c :: rest, in_tag, cc, md =>
    if c = '<' then
      let tag := (readTagName rest "").1
      let rest3 := skipPastGt (readTagName rest "").2
      let md2 := flushContent in_tag cc md
      if rustStartsWith tag "/" then html_loop fuel rest3 none "" md2
      else if tag = "h1" ∨ tag = "h2" ∨ tag = "p" ∨ tag = "li" ∨ tag = "a" ∨
          tag = "img" ∨ tag = "strong" ∨ tag = "em" ∨ tag = "blockquote" then
        html_loop fuel rest3 (some tag) "" md2
      else if tag = "br" then html_loop fuel rest3 in_tag "" (md2 ++ "\n")
      else if tag = "ul" ∨ tag = "ol" then html_loop fuel rest3 in_tag "" (md2 ++ "\n")
      else html_loop fuel rest3 none "" md2
    else html_loop fuel rest in_tag (cc.push c) md

/-- `html_to_markdown` (src/main.rs lines 255-333): run the scanning loop
on the character sequence with the always-sufficient fuel bound. -/
def html_to_markdown (html : String) : String :=
  (html_loop (html.data.length + 1) html.data none "" "").getD ""

lemma html_loop_lt_eq (fuel : Nat) (rest : List Char) (in_tag : Option String)
    (cc md : String) :
    html_loop (fuel + 1) ('<' :: rest) in_tag cc md =
      (if rustStartsWith (readTagName rest "").1 "/" then
        html_loop fuel (skipPastGt (readTagName rest "").2) none ""
          (flushContent in_tag cc md)
      else if (readTagName rest "").1 = "h1" ∨ (readTagName rest "").1 = "h2" ∨
          (readTagName rest "").1 = "p" ∨ (readTagName rest "").1 = "li" ∨
          (readTagName rest "").1 = "a" ∨ (readTagName rest "").1 = "img" ∨
          (readTagName rest "").1 = "strong" ∨ (readTagName rest "").1 = "em" ∨
          (readTagName rest "").1 = "blockquote" then
        html_loop fuel (skipPastGt (readTagName rest "").2)
          (some (readTagName rest "").1) "" (flushContent in_tag cc md)
      else if (readTagName rest "").1 = "br" then
        html_loop fuel (skipPastGt (readTagName rest "").2) in_tag ""
          (flushContent in_tag cc md ++ "\n")
      else if (readTagName rest "").1 = "ul" ∨ (readTagName rest "").1 = "ol" then
        html_loop fuel (skipPastGt (readTagName rest "").2) in_tag ""
          (flushContent in_tag cc md ++ "\n")
      else
        html_loop fuel (skipPastGt (readTagName rest "").2) none ""
          (flushContent in_tag cc md)) := rfl

lemma readTagName_len : ∀ (cs : List Char) (t : String),
    (readTagName cs t).2.length ≤ cs.length := by
  intro cs
  induction cs with
  | nil => intro t; exact Nat.le_refl _
  | cons c rest ih =>
    intro t
    unfold readTagName
    split
    · exact Nat.le_refl _
    · exact le_trans (ih (t.push c)) (Nat.le_succ _)

lemma skipPastGt_len : ∀ cs : List Char, (skipPastGt cs).length ≤ cs.length := by
  intro cs
  induction cs with
  | nil => exact Nat.le_refl _
  | cons c rest ih =>
    unfold skipPastGt
    split
    · exact Nat.le_succ _
    · exact le_trans ih (Nat.le_succ _)

lemma html_loop_total : ∀ (n : Nat) (cs : List Char), cs.length < n →
    ∀ in_tag cc md, ∃ out, html_loop n cs in_tag cc md = some out := by
  intro n
  induction n with
  | zero => intro cs h; exact absurd h (Nat.not_lt_zero _)
  | succ m ih =>
    intro cs h in_tag cc md
    cases cs with
    | nil => exact ⟨_, rfl⟩
    | cons c rest =>
      have hr : rest.length < m := by
        simp only [List.length_cons] at h
        omega
      by_cases hc : c = '<'
      · subst hc
        have hskip : (skipPastGt (readTagName rest "").2).length < m :=
          lt_of_le_of_lt (le_trans (skipPastGt_len _) (readTagName_len rest "")) hr
        rw [html_loop_lt_eq m rest in_tag cc md]
        split
        · exact ih _ hskip _ _ _
        · split
          · exact ih _ hskip _ _ _
          · split
            · exact ih _ hskip _ _ _
            · split
              · exact ih _ hskip _ _ _
              · exact ih _ hskip _ _ _
      · have e : html_loop (m + 1) (c :: rest) in_tag cc md =
            html_loop m rest in_tag (cc.push c) md := by
          simp only [html_loop]
          rw [if_neg hc]
        rw [e]
        exact ih rest hr _ _ _

/-- C7: the converter is total over arbitrary character input — for every
input string the fuel bound "length plus one" suffices, so the scan
terminates with a Markdown string and `html_to_markdown` never falls back
to its default. -/
theorem html_to_markdown_total :
    ∀ html : String, ∃ out,
      html_loop (html.data.length + 1) html.data none "" "" = some out ∧
      html_to_markdown html = out := by
  intro html
  rcases html_loop_total (html.data.length + 1) html.data (Nat.lt_succ_self _)
    none "" "" with ⟨out, hout⟩
  refine ⟨out, hout, ?_⟩
  unfold html_to_markdown
  rw [hout]
  rfl

/-- C8: on the heading-paragraph input the buffered "Hello " is flushed
under the p context before the strong tag overwrites the single-slot
context, giving exactly the concatenation of the per-tag rules. -/
theorem html_to_markdown_heading_paragraph :
    html_to_markdown "<h1>Title</h1><p>Hello <strong>world</strong></p>" =
      "# Title\n\nHello\n\n**world**" := rfl

/-- C9: the converter is deterministic — it is a pure function of its
input (the source reads no global state; its only side effect is logging),
so any two runs on the same input agree byte for byte. -/
theorem html_to_markdown_deterministic :
    ∀ (input r1 r2 : String),
      r1 = html_to_markdown input → r2 = html_to_markdown input → r1 = r2 := by
  intro input r1 r2 h1 h2
  rw [h1, h2]

/-- Witness for determinism at a concrete input, with both runs
evaluated. -/
theorem html_to_markdown_deterministic_witness :
    html_to_markdown "<p>a</p>" = "a\n\n" :=
  html_to_markdown_deterministic "<p>a</p>" (html_to_markdown "<p>a</p>") "a\n\n" rfl rfl

/-- C10: a br, ul, or ol tag emits its newline but leaves the single-slot
tag context unchanged, so the text after the void tag is still flushed
under the previously open tag's rule; concretely on "<p>a<br>b</p>" the b
after the br is rendered "b\n\n" under the p rule, not "b\n" under the
fallback rule. -/
theorem void_tags_keep_tag_context :
    (∀ (fuel : Nat) (rest : List Char) (in_tag : Option String) (cc md : String),
      (readTagName rest "").1 = "br" ∨ (readTagName rest "").1 = "ul" ∨
        (readTagName rest "").1 = "ol" →
      html_loop (fuel + 1) ('<' :: rest) in_tag cc md =
        html_loop fuel (skipPastGt (readTagName rest "").2) in_tag ""
          (flushContent in_tag cc md ++ "\n")) ∧
    html_to_markdown "<p>a<br>b</p>" = "a\n\n\nb\n\n" := by
  constructor
  · intro fuel rest in_tag cc md h
    rw [html_loop_lt_eq fuel rest in_tag cc md]
    rcases h with h | h | h <;> rw [h] <;> rfl
  · rfl

/-- Witness for the void-tag step at a concrete input: encountering the br
in "<p>a<br>b</p>" keeps the p context open. -/
theorem void_tags_keep_tag_context_witness :
    html_loop 9 ('<' :: "br>b</p>".data) (some "p") "a" "" =
      html_loop 8 (skipPastGt (readTagName "br>b</p>".data "").2) (some "p") ""
        (flushContent (some "p") "a" "" ++ "\n") :=
  void_tags_keep_tag_context.1 8 "br>b</p>".data (some "p") "a" "" (Or.inl rfl)
